import Mathlib

/-!
Verification of the osquery extension supervision core
(src/osquery/extensions/extensions.cpp) against its natural-language
specification.  The C++ source is shallowly embedded: each function that a
claim depends on is translated to an executable Lean definition; external
collaborators (filesystem primitives, the RPC transport, the registry) are
modelled as explicit environment records of oracles, since the source only
observes their results through narrow call sites.  The POSIX (non-WIN32,
non-APPLE, i.e. Linux) preprocessor branch of the source is the one embedded,
matching the platform constants on lines 44-47.
-/

namespace OsqExt

/-- Model of osquery Status (code, message); `Status(0, ...)` is success.
Mirrors the two-argument constructor used throughout extensions.cpp. -/
structure Status where
  code : Nat
  message : String
  deriving DecidableEq, Repr

/-- Model of `Status::ok()`: the code is 0. -/
def Status.ok (s : Status) : Bool := s.code == 0

/-- extensions.cpp line 36: millisecond latency between initializing manager
pings, the poll period of the bounded-wait prober. -/
def kExtensionInitializeLatency : Nat := 20

/-! ### Whitespace trimming (boost::trim, extensions.cpp line 369)

`boost::trim` strips the characters classified by `std::isspace` in the
default locale from both ends of the string. -/

/-- The six characters classified as whitespace by `std::isspace` in the
default C locale (space, tab, newline, vertical tab, form feed, carriage
return), the class trimmed by `boost::trim`. -/
def isSpaceChar (c : Char) : Bool :=
  c == ' ' || c == '\t' || c == '\n' || c == '\x0b' || c == '\x0c' || c == '\r'

/-- Trim of a character list: drop whitespace from the front, then from the
back. -/
def trimList (l : List Char) : List Char :=
  ((l.dropWhile isSpaceChar).reverse.dropWhile isSpaceChar).reverse

/-- Model of `boost::trim` on strings. -/
def trim (s : String) : String := String.mk (trimList s.data)

/-! ### Bounded-wait prober (extensions.cpp lines 130-152)

`applyExtensionDelay` takes a predicate returning a status and an out-parameter
`stop`; it retries every `kExtensionInitializeLatency` (20) ms until the
predicate succeeds, asks to stop, or the accumulated delay reaches the
timeout.  The timeout is `atoi(FLAGS_extensions_timeout) * 1000` ms, clamped
below at `kExtensionInitializeLatency * 10` = 200 ms.  The predicate is
modelled as a function from the zero-based call index to the `(stop, status)`
pair it produces on that call; the result is instrumented with the number of
predicate calls and the number of sleeps performed, so that latency claims are
expressible. -/

/-- Result of one run of the prober: the status returned by the C++ function
together with the observable effect counts (predicate invocations, 20 ms
sleeps). -/
structure DelayResult where
  status : Status
  calls : Nat
  sleeps : Nat
  deriving DecidableEq, Repr

/-- The do/while loop body of `applyExtensionDelay` (lines 140-150).  `delay`
is the accumulated wait, compared against `timeout` exactly as in the source
(`delay += 20; sleepFor(20); } while (delay < timeout)`, so the sleep happens
before the loop condition is re-checked).  `fuel` only bounds the structural
recursion; it is initialized to `timeout`, which exceeds the number of
iterations the `delay < timeout` guard permits (one iteration consumes 20 ms
of the budget), so the `fuel = 0` branch is unreachable from
`applyExtensionDelayM`. -/
def adLoop (pred : Nat → Bool × Status) (timeout : Nat) :
    Nat → Nat → Nat → Nat → DelayResult
  | fuel, delay, i, s =>
    let r := pred i
    if r.1 || r.2.ok then ⟨r.2, i + 1, s⟩
    else if delay + kExtensionInitializeLatency < timeout then
      match fuel with
      | 0 => ⟨r.2, i + 1, s + 1⟩
      | fuel' + 1 =>
          adLoop pred timeout fuel' (delay + kExtensionInitializeLatency)
            (i + 1) (s + 1)
    else ⟨r.2, i + 1, s + 1⟩

/-- `applyExtensionDelay` (lines 130-152).  `T` is the parsed value of
FLAGS_extensions_timeout in seconds (`atoi` yields 0 for an unparsable
string).  Line 134 converts to milliseconds; lines 135-137 clamp the timeout
below at `kExtensionInitializeLatency * 10`. -/
def applyExtensionDelayM (T : Nat) (pred : Nat → Bool × Status) : DelayResult :=
  let timeout :=
    if T * 1000 < kExtensionInitializeLatency * 10 then
      kExtensionInitializeLatency * 10
    else T * 1000
  adLoop pred timeout timeout 0 0 0

/-- The predicate of `extensionPathActive` (lines 154-179), POSIX branch.
`probeOk i` tells whether, on attempt `i`, the socket path exists, is
writable, and a trial manager-client connection succeeds (lines 163-171).  On
a failed attempt the predicate sets `stop` exactly when `use_timeout` is
false (lines 173-176) and returns the "socket not available" failure. -/
def pathActivePred (probeOk : Nat → Bool) (path : String)
    (use_timeout : Bool) (i : Nat) : Bool × Status :=
  if probeOk i then (false, Status.mk 0 "OK")
  else (!use_timeout, Status.mk 1 ("Extension socket not available: " ++ path))

/-- `extensionPathActive(path, use_timeout)` (lines 154-179): the bounded-wait
prober applied to the socket probe predicate. -/
def extensionPathActiveM (probeOk : Nat → Bool) (path : String)
    (use_timeout : Bool) (T : Nat) : DelayResult :=
  applyExtensionDelayM T (pathActivePred probeOk path use_timeout)

/-! ### Manager-side watcher (extensions.cpp lines 256-316, POSIX branch)

`ExtensionManagerWatcher::watch` probes every UUID returned by
`Registry::routeUUIDs()`, maintains the per-UUID failure ledger
`failures_` (a `std::map<RouteUUID, size_t>`, defaulting absent keys to 0
through `operator[]`), and ends the tick by deregistering
(`Registry::removeBroadcast`) every UUID whose ledger value exceeds 1,
resetting it to 1.  The external observations of one tick for one UUID are
modelled by an environment record. -/

/-- Environment of one watcher tick: for each UUID, whether its socket is
writable (line 274), the boolean outcome of the timeout-bounded
`extensionPathActive(path, true)` escalation (line 279, a Status converted to
bool), and the ping outcome (lines 286-293): `none` models a thrown transport
exception, `some code` a reply with that status code
(`ExtensionCode::EXT_SUCCESS` = 0). -/
structure WatchEnv where
  writable : Nat → Bool
  probeActive : Nat → Bool
  ping : Nat → Option Nat

/-- The failure ledger: an association list from UUID to counter, standing in
for `std::map<RouteUUID, size_t> failures_`.  Only the key-value mapping is
observable in the claims; map iteration order is not relied upon. -/
abbrev Ledger : Type := List (Nat × Nat)

/-- Lookup with the `operator[]` default of 0 for an absent key. -/
def lget (l : Ledger) (u : Nat) : Nat :=
  match l.find? (fun e => e.1 == u) with
  | some e => e.2
  | none => 0

/-- `failures_[u] = v`: update the first entry with key `u`, or insert. -/
def lset : Ledger → Nat → Nat → Ledger
  | [], u, v => [(u, v)]
  | e :: t, u, v => if e.1 == u then (u, v) :: t else e :: lset t u v

/-- Lines 273-305 for a single UUID `u`: check writability; if unwritable and
never probed (counter 0), escalate to the timeout-bounded endpoint probe; set
the counter to 1 unconditionally (line 284); then ping if writable, bumping
the counter to 2 on an unwritable socket, a transport exception, or a
non-success ping code, and resetting it to 1 on a successful ping.
(The read of `failures_[uuid]` on line 275 may insert a 0 entry into the
`std::map`; that entry is overwritten by the unconditional assignment on line
284 before anything observes it, so the model elides the phantom insert.) -/
def effWritable (env : WatchEnv) (l : Ledger) (u : Nat) : Bool :=
  if !env.writable u && (lget l u == 0) then env.probeActive u
  else env.writable u

def processUuid (env : WatchEnv) (l : Ledger) (u : Nat) : Ledger :=
  let writable := effWritable env l u
  let l := lset l u 1
  if writable then
    match env.ping u with
    | none => lset l u (lget l u + 1)
    | some code =>
        if code != 0 then lset l u (lget l u + 1) else lset l u 1
  else lset l u (lget l u + 1)

/-- One tick of `ExtensionManagerWatcher::watch` (lines 256-316): process the
UUID snapshot in order, then perform the end-of-tick pass (lines 309-315)
over the whole ledger: collect every UUID whose counter exceeds 1 (these are
passed to `Registry::removeBroadcast`) and reset those counters to 1.
Returns the new ledger and the list of deregistered UUIDs. -/
def tickM (env : WatchEnv) (uuids : List Nat) (l : Ledger) :
    Ledger × List Nat :=
  let l1 := uuids.foldl (processUuid env) l
  (l1.map (fun e => if e.2 > 1 then (e.1, 1) else e),
   (l1.filter (fun e => e.2 > 1)).map (fun e => e.1))

/-- A whole watcher run: the ledger starts empty when the watcher service is
constructed, and each tick sees a (possibly different) UUID snapshot and
environment. -/
def runTicks (script : List (WatchEnv × List Nat)) (l : Ledger) : Ledger :=
  script.foldl (fun acc t => (tickM t.1 t.2 acc).1) l

/-- The effective probe verdict of one tick for UUID `u`: true when the
tick's handling of `u` ends in a failure increment (unwritable socket after
any first-time escalation, transport exception, or non-success ping code). -/
def failEff (env : WatchEnv) (l : Ledger) (u : Nat) : Bool :=
  if effWritable env l u then
    match env.ping u with
    | none => true
    | some code => code != 0
  else true

/-- The key list of a ledger. -/
def lkeys (l : Ledger) : List Nat := l.map (fun e => e.1)

/-- A tick environment in which every probe fails outright: the socket is not
writable, the timeout-bounded escalation also fails, and any ping would throw.
Used to witness single-tick behavior. -/
def envAllFail : WatchEnv where
  writable := fun _ => false
  probeActive := fun _ => false
  ping := fun _ => none

/-! ### Autoload vetting (extensions.cpp lines 368-444)

`isFileSafe` trims the candidate line, rejects blanks and comments, rejects
directories, rebuilds the path through `fs::path` (whose construct/`string()`
round trip is the identity on POSIX: boost stores the given generic string
unchanged), verifies the parent directory's permission safety and the
platform suffix.  `loadExtensions`/`loadModules` split a loadfile on newlines
with `osquery::split` and aggregate per-line verdicts. -/

/-- The extendable kinds of extensions.cpp lines 49-52. -/
inductive ExtenableTypes where
  | EXTENSION
  | MODULE
  deriving DecidableEq, Repr

/-- Platform suffix map (lines 44-47 and 54-56, Linux branch): `.ext` for
extension binaries, `.so` for modules. -/
def kExtendables : ExtenableTypes → String
  | .EXTENSION => ".ext"
  | .MODULE => ".so"

/-- First byte of a string (the C++ `path[0]`, read only behind the
`path.size() == 0` guard; the default for the empty string is never
observed). -/
def firstChar (s : String) : Char :=
  match s.data with
  | [] => 'A'
  | c :: _ => c

/-- `fs::path(p).parent_path().string()` for POSIX paths: everything before
the last slash (the slash itself dropped except for a root parent). -/
def parentPath (s : String) : String :=
  match s.data.reverse.dropWhile (fun c => !(c == '/')) with
  | [] => ""
  | _ :: rest => if rest.isEmpty then "/" else String.mk rest.reverse

/-- `fs::path(p).filename().string()` for POSIX paths: everything after the
last slash. -/
def fileName (s : String) : String :=
  String.mk (s.data.reverse.takeWhile (fun c => !(c == '/'))).reverse

/-- `fs::path(p).extension().string()` with boost semantics: empty for the
special filenames `.` and `..`, otherwise the substring of the filename from
its rightmost dot (inclusive), or empty when the filename has no dot. -/
def extensionSuffix (s : String) : String :=
  let f := fileName s
  if f == "." || f == ".." then ""
  else
    let cs := f.data
    let after := cs.reverse.takeWhile (fun c => !(c == '.'))
    if after.length == cs.length then ""
    else String.mk ('.' :: after.reverse)

/-- `fs::path(path).string()`: the identity on POSIX (boost keeps the source
string unchanged in its generic format). -/
def pathNormalize (s : String) : String := s

/-- The sanitization isFileSafe applies to an autoload line before the safety
checks: whitespace trim (line 369) followed by the filesystem-path
round trip (lines 387-389). -/
def sanitize (s : String) : String := pathNormalize (trim s)

/-- Filesystem oracle for the autoload checks: `isDirectory` (line 377) and
`safePermissions(parent, path, true)` (line 390), both external filesystem
collaborators of this file. -/
structure FsEnv where
  isDirectory : String → Bool
  safePermissions : String → String → Bool

/-- `isFileSafe` (lines 368-404): acceptance verdict for one autoload line.
The in-out `path` parameter is mutated to `sanitize path0`; since the
`fs::path` round trip is the identity, every check below operates on the
trimmed line. -/
def isFileSafe (env : FsEnv) (path0 : String) (type : ExtenableTypes) : Bool :=
  if (trim path0).length == 0 || firstChar (trim path0) == '#' ||
      firstChar (trim path0) == ';' then false
  else if env.isDirectory (trim path0) then false
  else if !(env.safePermissions (parentPath (trim path0)) (trim path0)) then
    false
  else if extensionSuffix (trim path0) != kExtendables type then false
  else true

/-- Modelled from the spec: `osquery::split` (osquery/core/conversions, not
part of this source file).  Per spec section 6, the loadfile is
newline-delimited and blank lines are ignored; split returns the
delimiter-separated pieces, trimmed, with whitespace-only pieces removed.
Splitting is on a single delimiter character (the callers use "\n" and ","). -/
def splitOnCharAux (c : Char) : List Char → List Char → List (List Char)
  | [], acc => [acc.reverse]
  | a :: t, acc =>
      if a == c then acc.reverse :: splitOnCharAux c t []
      else splitOnCharAux c t (a :: acc)

/-- Modelled from the spec: `osquery::split(s, delim)`, see splitOnCharAux. -/
def osquerySplit (s : String) (c : Char) : List String :=
  ((splitOnCharAux c s.data []).map (fun l => trim (String.mk l))).filter
    (fun p => !(p == ""))

/-- Environment of the loaders: the loadfile contents (`none` when
`readFile` fails, line 414/431) and the filesystem oracle. -/
structure LoadEnv where
  readFile : String → Option String
  fs : FsEnv

/-- `loadExtensions(loadfile)` (lines 406-425).  `flagExtension` is
FLAGS_extension (the shell-only single-extension bypass, lines 408-412).
Returns the status together with the list of paths handed to
`Watcher::addExtensionPath`. -/
def loadExtensionsM (flagExtension : String) (env : LoadEnv)
    (loadfile : String) : Status × List String :=
  let pre := if flagExtension == "" then [] else [flagExtension]
  match env.readFile loadfile with
  | some content =>
      (Status.mk 0 "OK",
       pre ++ (osquerySplit content '\n').filterMap
         (fun p =>
           if isFileSafe env.fs p ExtenableTypes.EXTENSION then
             some (sanitize p)
           else none))
  | none => (Status.mk 1 ("Failed reading: " ++ loadfile), pre)

/-- `loadModules(loadfile)` (lines 427-444): the aggregate all-loaded status
(`Status(all_loaded ? 0 : 1)`, message empty). -/
def loadModulesM (env : LoadEnv) (loadfile : String) : Status :=
  match env.readFile loadfile with
  | some content =>
      Status.mk
        (if (osquerySplit content '\n').all
            (fun p => isFileSafe env.fs p ExtenableTypes.MODULE) then 0
          else 1) ""
  | none => Status.mk 1 ("Failed reading: " ++ loadfile)

/-! ### Host-side RPC facades (extensions.cpp lines 543-701)

Every facade operation first runs the non-timeout endpoint-active probe, then
constructs a scoped RPC client and performs one call; a thrown transport
exception is flattened to "Extension call failed: <what>".  RPC replies are
environment oracles (`Except` carries the exception message).  Results are
instrumented with the number of endpoint probe attempts and RPC calls
performed, so that fail-fast claims are expressible. -/

/-- One row of a Thrift response (a map<string, string>). -/
abbrev Row : Type := List (String × String)

/-- Instrumented result of a facade operation: the returned status, the
operation's output payload, and the observable effect counts. -/
structure OpResult (α : Type) where
  status : Status
  out : α
  probes : Nat
  rpcs : Nat
  deriving DecidableEq, Repr

/-- `ExtensionCode::EXT_SUCCESS`. -/
def EXT_SUCCESS : Nat := 0

/-- Extension identity as surfaced by getExtensions. -/
structure ExtInfo where
  name : String
  version : String
  min_sdk_version : String
  sdk_version : String
  deriving DecidableEq, Repr

/-- External host version constants (osquery core, not this file; their
values are irrelevant to the claims). -/
def kVersion : String := "kVersion"

/-- External SDK version constant, as kVersion. -/
def kSDKVersion : String := "kSDKVersion"

/-- Environment of pingExtension: the endpoint probe oracle and the ping
reply (error = thrown transport exception message). -/
structure PingEnv where
  probeOk : Nat → Bool
  ping : Except String Status

/-- Environment of queryExternal: probe oracle and the query reply (status
and rows of ExtensionResponse). -/
structure QueryEnv where
  probeOk : Nat → Bool
  query : Except String (Status × List Row)

/-- Environment of getQueryColumnsExternal: probe oracle, the
getQueryColumns reply, and the external `columnTypeName` conversion. -/
structure ColumnsEnv where
  probeOk : Nat → Bool
  getQueryColumns : Except String (Status × List Row)
  columnTypeName : String → String

/-- Environment of getExtensions: probe oracle and the extensions() reply. -/
structure ExtListEnv where
  probeOk : Nat → Bool
  extensions : Except String (List (Nat × ExtInfo))

/-- Environment of callExtension: probe oracle and the call() reply. -/
structure CallEnv where
  probeOk : Nat → Bool
  call : Except String (Status × List Row)

/-- `pingExtension(path)` (lines 604-624): fail fast on
FLAGS_disable_extensions; then the non-timeout endpoint probe; then one ping
RPC. -/
def pingExtensionM (disable_extensions : Bool) (env : PingEnv) (path : String)
    (T : Nat) : OpResult Unit :=
  if disable_extensions then ⟨Status.mk 1 "Extensions disabled", (), 0, 0⟩
  else
    let d := extensionPathActiveM env.probeOk path false T
    if !d.status.ok then ⟨d.status, (), d.calls, 0⟩
    else
      match env.ping with
      | .error e =>
          ⟨Status.mk 1 ("Extension call failed: " ++ e), (), d.calls, 1⟩
      | .ok est => ⟨Status.mk est.code est.message, (), d.calls, 1⟩

/-- `queryExternal(manager_path, query, results)` (lines 543-565): probe,
one query RPC, then append every returned row to the caller's results before
propagating the reply status (no EXT_SUCCESS check). -/
def queryExternalPathM (env : QueryEnv) (manager_path query : String)
    (results : List Row) (T : Nat) : OpResult (List Row) :=
  let d := extensionPathActiveM env.probeOk manager_path false T
  if !d.status.ok then ⟨d.status, results, d.calls, 0⟩
  else
    match env.query with
    | .error e =>
        ⟨Status.mk 1 ("Extension call failed: " ++ e), results, d.calls, 1⟩
    | .ok (st, rows) =>
        ⟨Status.mk st.code st.message, results ++ rows, d.calls, 1⟩

/-- `queryExternal(query, results)` (lines 567-569): delegates to the
manager-socket overload directly; FLAGS_disable_extensions is NOT consulted
on this path (no early return exists in the source).  The flag is still a
parameter here so that its irrelevance is statable. -/
def queryExternalM (_disable_extensions : Bool) (env : QueryEnv)
    (socket query : String) (results : List Row) (T : Nat) :
    OpResult (List Row) :=
  queryExternalPathM env socket query results T

/-- `getQueryColumnsExternal(manager_path, query, columns)` (lines 571-597):
probe, one RPC, then translate the list of single-entry maps into ordered
(name, type) pairs.  (The constant ColumnOptions::DEFAULT component of each
emitted tuple is elided.) -/
def getQueryColumnsExternalPathM (env : ColumnsEnv)
    (manager_path query : String) (columns : List (String × String))
    (T : Nat) : OpResult (List (String × String)) :=
  let d := extensionPathActiveM env.probeOk manager_path false T
  if !d.status.ok then ⟨d.status, columns, d.calls, 0⟩
  else
    match env.getQueryColumns with
    | .error e =>
        ⟨Status.mk 1 ("Extension call failed: " ++ e), columns, d.calls, 1⟩
    | .ok (st, resp) =>
        ⟨Status.mk st.code st.message,
          columns ++ resp.flatMap
            (fun column =>
              column.map (fun col => (col.1, env.columnTypeName col.2))),
          d.calls, 1⟩

/-- `getQueryColumnsExternal(query, columns)` (lines 599-602): delegates
directly; FLAGS_disable_extensions is NOT consulted on this path. -/
def getQueryColumnsExternalM (_disable_extensions : Bool) (env : ColumnsEnv)
    (socket query : String) (columns : List (String × String)) (T : Nat) :
    OpResult (List (String × String)) :=
  getQueryColumnsExternalPathM env socket query columns T

/-- `getExtensions(manager_path, extensions)` (lines 633-661): probe, one
extensions() RPC, then emit UUID 0 as the core identity followed by the
reply entries.  (Both call sites pass a freshly default-constructed empty
map, so the in-out parameter is modelled as pure output.) -/
def getExtensionsPathM (env : ExtListEnv) (manager_path : String) (T : Nat) :
    OpResult (List (Nat × ExtInfo)) :=
  let d := extensionPathActiveM env.probeOk manager_path false T
  if !d.status.ok then ⟨d.status, [], d.calls, 0⟩
  else
    match env.extensions with
    | .error e =>
        ⟨Status.mk 1 ("Extension call failed: " ++ e), [], d.calls, 1⟩
    | .ok ext_list =>
        ⟨Status.mk 0 "OK",
          (0, ExtInfo.mk "core" kVersion "0.0.0" kSDKVersion) :: ext_list,
          d.calls, 1⟩

/-- `getExtensions(extensions)` (lines 626-631): fail fast on
FLAGS_disable_extensions, else delegate to the manager socket. -/
def getExtensionsM (disable_extensions : Bool) (env : ExtListEnv)
    (socket : String) (T : Nat) : OpResult (List (Nat × ExtInfo)) :=
  if disable_extensions then ⟨Status.mk 1 "Extensions disabled", [], 0, 0⟩
  else getExtensionsPathM env socket T

/-- Modelled from the spec: `getExtensionSocket(uuid, manager_path)`
(osquery/extensions/interface.h, not under src/).  Spec section 6: the
extension endpoint for UUID u is the manager endpoint with a dot and the
decimal UUID appended. -/
def getExtensionSocketM (uuid : Nat) (manager_path : String) : String :=
  manager_path ++ "." ++ toString uuid

/-- `callExtension(extension_path, registry, item, request, response)`
(lines 675-701): probe, one call() RPC; rows are appended to the caller's
response only when the reply status code is EXT_SUCCESS. -/
def callExtensionPathM (env : CallEnv) (extension_path registry item : String)
    (request : Row) (response : List Row) (T : Nat) : OpResult (List Row) :=
  let d := extensionPathActiveM env.probeOk extension_path false T
  if !d.status.ok then ⟨d.status, response, d.calls, 0⟩
  else
    match env.call with
    | .error e =>
        ⟨Status.mk 1 ("Extension call failed: " ++ e), response, d.calls, 1⟩
    | .ok (st, rows) =>
        ⟨Status.mk st.code st.message,
          if st.code == EXT_SUCCESS then response ++ rows else response,
          d.calls, 1⟩

/-- `callExtension(uuid, registry, item, request, response)` (lines
663-673): fail fast on FLAGS_disable_extensions, else resolve the extension
socket from the UUID and delegate. -/
def callExtensionM (disable_extensions : Bool) (env : CallEnv)
    (socket : String) (uuid : Nat) (registry item : String) (request : Row)
    (response : List Row) (T : Nat) : OpResult (List Row) :=
  if disable_extensions then
    ⟨Status.mk 1 "Extensions disabled", response, 0, 0⟩
  else
    callExtensionPathM env (getExtensionSocketM uuid socket) registry item
      request response T

/-- A live endpoint whose query RPC succeeds with one row. -/
def qenvLive : QueryEnv :=
  ⟨fun _ => true, Except.ok (Status.mk 0 "OK", [[("n", "1")]])⟩

/-! ### Manager bootstrap and the required-extension gate
(extensions.cpp lines 725-779)

`startExtensionManager(manager_path)` validates the socket, starts the
watcher and runner services (thread effects, unobservable here), and, when
FLAGS_extensions_require is non-empty, gates startup: for each required name
it runs the bounded-wait prober with a predicate that lists the known
extensions and pings a matching one, or fails with "Extension not
autoloaded"; a shared `waited` flag, set after the first prober run
completes, makes the predicate stop immediately on any later absence. -/

/-- Environment of the require gate: the socketWritable outcome (line 730),
whether `getExtensions(extensions)` succeeds inside the predicate, the
(uuid, name) entries it lists after the injected core entry, and the
`pingExtension(getExtensionSocket(uuid))` outcome per UUID.  The listing and
outcomes are time-invariant, modelling an extension set that does not change
during the gate. -/
structure MgrEnv where
  socketStatus : Status
  getExtOk : Bool
  extList : List (Nat × String)
  ping : Nat → Status

/-- The ExtensionList observed by the predicate (line 753-755): getExtensions
injects UUID 0 as "core" (line 650) ahead of the reply entries, and the map
iterates in ascending UUID order. -/
def mgrListing (env : MgrEnv) : List (Nat × String) :=
  (0, "core") :: env.extList

/-- The require-gate predicate (lines 752-766) for one required name: when
the listing is available and contains the name, return the ping outcome of
the first matching entry without stopping; otherwise fail with the
autoload message, stopping exactly when a previous prober run has already
consumed a wait window. -/
def requirePred (env : MgrEnv) (extension : String) (waited : Bool) :
    Bool × Status :=
  if env.getExtOk then
    match (mgrListing env).find? (fun e => e.2 == extension) with
    | some e => (false, env.ping e.1)
    | none =>
        (waited, Status.mk 1 ("Extension not autoloaded: " ++ extension))
  else (waited, Status.mk 1 ("Extension not autoloaded: " ++ extension))

/-- The for-loop over required names (lines 751-775): run the prober per
name with `waited` threaded through (set unconditionally after each prober
run, line 770), returning the first failing status.  The second component
reports the number of predicate calls of the run that produced the returned
status (0 when every name succeeded).  (The prober call appears three times
below where the source binds it once; the repetition only avoids a local
binding and does not change the computed value.) -/
def requireLoop (env : MgrEnv) (T : Nat) :
    List String → Bool → Status × Nat
  | [], _ => (Status.mk 0 "OK", 0)
  | n :: rest, waited =>
      if (applyExtensionDelayM T
          (fun _ => requirePred env n waited)).status.ok then
        requireLoop env T rest true
      else
        ((applyExtensionDelayM T (fun _ => requirePred env n waited)).status,
          (applyExtensionDelayM T (fun _ => requirePred env n waited)).calls)

/-- `startExtensionManager(manager_path)` (lines 725-779), its observable
status outcome: the socketWritable gate (lines 727-735), then the required
extension gate when FLAGS_extensions_require is non-empty (lines 748-776).
The Dispatcher service starts (lines 738-745) have no observable effect on
the returned status.  Returns the status and the predicate-call count of the
failing prober run (0 if none failed). -/
def startExtensionManagerM (env : MgrEnv) (T : Nat)
    (extensionsRequire : String) : Status × Nat :=
  if !env.socketStatus.ok then (env.socketStatus, 0)
  else if extensionsRequire == "" then (Status.mk 0 "OK", 0)
  else requireLoop env T (osquerySplit extensionsRequire ',') false

/-- The require-gate environment of the spec's concrete scenario: the socket
is writable, only "probe-a" (UUID 42) ever registers, and its ping
succeeds. -/
def envRequire : MgrEnv where
  socketStatus := Status.mk 0 "OK"
  getExtOk := true
  extList := [(42, "probe-a")]
  ping := fun u => if u == 42 then Status.mk 0 "OK" else Status.mk 1 "down"

/-! ### Theorems -/

theorem dropWhile_dropWhile (p : Char → Bool) (l : List Char) :
    (l.dropWhile p).dropWhile p = l.dropWhile p := by
  induction l with
  | nil => rfl
  | cons a t ih =>
      by_cases h : p a
      · simp [List.dropWhile, h, ih]
      · simp [List.dropWhile, h]

theorem dropWhile_head_false (p : Char → Bool) (l : List Char) (a : Char)
    (t : List Char) (h : l.dropWhile p = a :: t) : p a = false := by
  induction l with
  | nil => simp [List.dropWhile] at h
  | cons b u ih =>
      by_cases hb : p b
      · exact ih (by simpa [List.dropWhile, hb] using h)
      · simp [List.dropWhile, hb] at h
        simpa [h.1] using hb

theorem dropWhile_eq_self_of_head (p : Char → Bool) (l : List Char)
    (h : ∀ a t, l = a :: t → p a = false) : l.dropWhile p = l := by
  cases l with
  | nil => rfl
  | cons a t => simp [List.dropWhile, h a t rfl]

theorem dropWhile_suffix (p : Char → Bool) (l : List Char) :
    l.dropWhile p <:+ l := by
  induction l with
  | nil => exact List.suffix_rfl
  | cons a t ih =>
      by_cases h : p a
      · simpa [List.dropWhile, h] using ih.trans (List.suffix_cons a t)
      · simp [List.dropWhile, h]

theorem getLast?_of_suffix {l₁ l₂ : List Char} (h : l₁ <:+ l₂)
    (hne : l₁ ≠ []) : l₂.getLast? = l₁.getLast? := by
  obtain ⟨s, rfl⟩ := h
  exact List.getLast?_append_of_ne_nil s hne

/-- Head of a twice-trimmed tail: the trailing-drop of a leading-dropped list
still has a non-space first character, so a further leading drop is the
identity. -/
theorem dropWhile_trimList_eq (p : Char → Bool) (x : List Char)
    (hx : x.dropWhile p = x) :
    ((x.reverse.dropWhile p).reverse).dropWhile p =
      (x.reverse.dropWhile p).reverse := by
  apply dropWhile_eq_self_of_head
  intro a t h
  -- a is the last element of z := x.reverse.dropWhile p, which is the last
  -- element of x.reverse, which is the head of x; the head of x fails p.
  have hz : (x.reverse.dropWhile p) ≠ [] := by
    intro hnil
    rw [hnil] at h
    exact absurd h (by simp)
  have hlast : x.reverse.getLast? = (x.reverse.dropWhile p).getLast? :=
    getLast?_of_suffix (dropWhile_suffix p x.reverse) hz
  have hhead : ((x.reverse.dropWhile p).reverse).head? = some a := by
    rw [h]; rfl
  rw [List.head?_reverse] at hhead
  have hxhead : x.head? = some a := by
    rw [← List.getLast?_reverse, hlast, hhead]
  cases hx' : x with
  | nil => rw [hx'] at hxhead; simp at hxhead
  | cons b u =>
      rw [hx'] at hxhead
      simp at hxhead
      subst hxhead
      exact dropWhile_head_false p x b u (hx.trans hx')

/-- trimList is idempotent. -/
theorem trimList_idem (l : List Char) : trimList (trimList l) = trimList l := by
  unfold trimList
  set p := isSpaceChar
  set x := l.dropWhile p with hxdef
  have hx : x.dropWhile p = x := dropWhile_dropWhile p l
  set z := x.reverse.dropWhile p with hzdef
  have h1 : (z.reverse).dropWhile p = z.reverse := dropWhile_trimList_eq p x hx
  rw [h1, List.reverse_reverse, hzdef, dropWhile_dropWhile]

/-- trim is idempotent. -/
theorem trim_idem (s : String) : trim (trim s) = trim s := by
  unfold trim
  rw [show (String.mk (trimList s.data)).data = trimList s.data from rfl,
    trimList_idem]

/-- Unfolding lemma for the loop at zero fuel. -/
theorem adLoop_zero (pred : Nat → Bool × Status) (timeout delay i s : Nat) :
    adLoop pred timeout 0 delay i s =
      if ((pred i).1 || (pred i).2.ok) then ⟨(pred i).2, i + 1, s⟩
      else if delay + kExtensionInitializeLatency < timeout then
        ⟨(pred i).2, i + 1, s + 1⟩
      else ⟨(pred i).2, i + 1, s + 1⟩ := rfl

/-- Unfolding lemma for the loop at successor fuel. -/
theorem adLoop_succ (pred : Nat → Bool × Status)
    (timeout fuel' delay i s : Nat) :
    adLoop pred timeout (fuel' + 1) delay i s =
      if ((pred i).1 || (pred i).2.ok) then ⟨(pred i).2, i + 1, s⟩
      else if delay + kExtensionInitializeLatency < timeout then
        adLoop pred timeout fuel' (delay + kExtensionInitializeLatency)
          (i + 1) (s + 1)
      else ⟨(pred i).2, i + 1, s + 1⟩ := rfl

/-- If the predicate neither stops nor succeeds on any call, the loop runs out
the clock: starting from accumulated delay `delay < timeout` with enough fuel,
it performs exactly `(timeout - delay + 19) / 20` further calls, sleeping
after each one. -/
theorem adLoop_never (pred : Nat → Bool × Status) (timeout : Nat)
    (hp : ∀ j, (pred j).1 = false ∧ (pred j).2.ok = false) :
    ∀ fuel delay i s, timeout ≤ delay + kExtensionInitializeLatency * fuel →
      delay < timeout →
      (adLoop pred timeout fuel delay i s).calls =
        i + (timeout - delay + 19) / 20 ∧
      (adLoop pred timeout fuel delay i s).sleeps =
        s + (timeout - delay + 19) / 20 := by
  intro fuel
  induction fuel with
  | zero =>
      intro delay i s hinv hd
      simp only [kExtensionInitializeLatency, Nat.mul_zero, Nat.add_zero]
        at hinv
      omega
  | succ fuel' ih =>
      intro delay i s hinv hd
      have hcond : ¬(((pred i).1 || (pred i).2.ok) = true) := by
        rw [(hp i).1, (hp i).2]; simp
      rw [adLoop_succ, if_neg hcond]
      simp only [kExtensionInitializeLatency] at hinv ⊢
      by_cases hc : delay + 20 < timeout
      · rw [if_pos hc]
        have hinv' : timeout ≤ delay + 20 + 20 * fuel' := by omega
        have := ih (delay + 20) (i + 1) (s + 1)
          (by simpa [kExtensionInitializeLatency] using hinv') hc
        simp only [kExtensionInitializeLatency] at this
        obtain ⟨h1, h2⟩ := this
        refine ⟨?_, ?_⟩
        · rw [h1]; omega
        · rw [h2]; omega
      · rw [if_neg hc]
        refine ⟨?_, ?_⟩
        · show i + 1 = i + (timeout - delay + 19) / 20
          omega
        · show s + 1 = s + (timeout - delay + 19) / 20
          omega

/-- If the first `k` calls neither stop nor succeed, the k-th (zero-based)
call stops or succeeds, and the accumulated delay stays below the timeout
through call `k`, then the loop returns the k-th status with `k + 1` total
calls and `k` sleeps: nothing runs after the stopping call. -/
theorem adLoop_stop (pred : Nat → Bool × Status) (timeout : Nat) :
    ∀ k fuel delay i s,
      timeout ≤ delay + kExtensionInitializeLatency * fuel →
      (∀ j, j < k → (pred (i + j)).1 = false ∧ (pred (i + j)).2.ok = false) →
      ((pred (i + k)).1 = true ∨ (pred (i + k)).2.ok = true) →
      delay + kExtensionInitializeLatency * k < timeout →
      adLoop pred timeout fuel delay i s = ⟨(pred (i + k)).2, i + k + 1, s + k⟩ := by
  intro k
  induction k with
  | zero =>
      intro fuel delay i s _ _ hk _
      rw [Nat.add_zero] at hk ⊢
      have hcond : ((pred i).1 || (pred i).2.ok) = true := by
        rcases hk with h | h <;> simp [h]
      cases fuel with
      | zero =>
          rw [adLoop_zero, if_pos hcond]
          rfl
      | succ fuel' =>
          rw [adLoop_succ, if_pos hcond]
          rfl
  | succ k' ih =>
      intro fuel delay i s hinv hfail hk hdel
      have h0 := hfail 0 (Nat.succ_pos k')
      rw [Nat.add_zero] at h0
      have hcond : ¬(((pred i).1 || (pred i).2.ok) = true) := by
        rw [h0.1, h0.2]; simp
      have hc : delay + kExtensionInitializeLatency < timeout := by
        simp only [kExtensionInitializeLatency] at hdel ⊢
        omega
      cases fuel with
      | zero =>
          exfalso
          simp only [kExtensionInitializeLatency, Nat.mul_zero, Nat.add_zero]
            at hinv
          simp only [kExtensionInitializeLatency] at hc
          omega
      | succ fuel' =>
          rw [adLoop_succ, if_neg hcond, if_pos hc]
          have hinv' : timeout ≤
              delay + kExtensionInitializeLatency +
                kExtensionInitializeLatency * fuel' := by
            simp only [kExtensionInitializeLatency] at hinv ⊢
            omega
          have hfail' : ∀ j, j < k' →
              (pred (i + 1 + j)).1 = false ∧ (pred (i + 1 + j)).2.ok = false := by
            intro j hj
            have := hfail (j + 1) (by omega)
            simpa [show i + (j + 1) = i + 1 + j by omega] using this
          have hk' : (pred (i + 1 + k')).1 = true ∨
              (pred (i + 1 + k')).2.ok = true := by
            simpa [show i + (k' + 1) = i + 1 + k' by omega] using hk
          have hdel' : delay + kExtensionInitializeLatency +
              kExtensionInitializeLatency * k' < timeout := by
            simp only [kExtensionInitializeLatency] at hdel ⊢
            omega
          have hrec := ih fuel' (delay + kExtensionInitializeLatency) (i + 1)
            (s + 1) hinv' hfail' hk' hdel'
          rw [hrec]
          have e1 : i + 1 + k' = i + (k' + 1) := by omega
          have e2 : s + 1 + k' = s + (k' + 1) := by omega
          rw [e1, e2]

/-- A constant predicate yields its status whatever the exit path, and exits
after the first call (with no sleep) as soon as it stops or succeeds. -/
theorem adLoop_const (stop : Bool) (st : Status) (timeout : Nat) :
    ∀ fuel delay i s,
      (adLoop (fun _ => (stop, st)) timeout fuel delay i s).status = st := by
  intro fuel
  induction fuel with
  | zero =>
      intro delay i s
      rw [adLoop_zero]
      by_cases h : (stop || st.ok) = true
      · rw [if_pos h]
      · rw [if_neg h]
        by_cases hc : delay + kExtensionInitializeLatency < timeout
        · rw [if_pos hc]
        · rw [if_neg hc]
  | succ fuel' ih =>
      intro delay i s
      rw [adLoop_succ]
      by_cases h : (stop || st.ok) = true
      · rw [if_pos h]
      · rw [if_neg h]
        by_cases hc : delay + kExtensionInitializeLatency < timeout
        · rw [if_pos hc]
          exact ih _ _ _
        · rw [if_neg hc]

/-- The clamped timeout used by `applyExtensionDelayM` equals
`max (T * 1000) 200`. -/
theorem clamped_timeout (T : Nat) :
    (if T * 1000 < kExtensionInitializeLatency * 10 then
        kExtensionInitializeLatency * 10
      else T * 1000) = max (T * 1000) 200 := by
  simp only [kExtensionInitializeLatency]
  by_cases h : T * 1000 < 20 * 10
  · rw [if_pos h]
    omega
  · rw [if_neg h]
    omega

/-- Claim C4: for every configured extensions_timeout value T in seconds
(atoi maps an unparsable flag to 0, covered by T = 0), applyExtensionDelay
uses an effective deadline of max(T * 1000 ms, 200 ms) with a 20 ms poll
period: when the predicate never succeeds and never sets stop, the number of
predicate invocations is exactly that deadline divided by the 20 ms period,
which is at least 10. -/
theorem applyExtensionDelay_min_ten_attempts (T : Nat)
    (pred : Nat → Bool × Status)
    (hp : ∀ j, (pred j).1 = false ∧ (pred j).2.ok = false) :
    (applyExtensionDelayM T pred).calls = max (T * 1000) 200 / 20 ∧
      10 ≤ (applyExtensionDelayM T pred).calls := by
  unfold applyExtensionDelayM
  rw [clamped_timeout]
  have h200 : 200 ≤ max (T * 1000) 200 := Nat.le_max_right _ _
  have hnever := (adLoop_never pred (max (T * 1000) 200) hp
    (max (T * 1000) 200) 0 0 0
    (by simp only [kExtensionInitializeLatency]; omega)
    (by omega)).1
  rw [hnever]
  have hdvd : 20 ∣ max (T * 1000) 200 := by
    rcases Nat.le_total (T * 1000) 200 with h | h
    · rw [Nat.max_eq_right h]
      exact ⟨10, rfl⟩
    · rw [Nat.max_eq_left h]
      exact Dvd.dvd.mul_left (by norm_num) T
  constructor
  · omega
  · omega

/-- Witness for C4 at T = 0 with an always-failing, never-stopping predicate:
the prober makes exactly 10 calls. -/
theorem applyExtensionDelay_min_ten_attempts_witness :
    (∀ j, ((fun (_ : Nat) => (false, Status.mk 1 "down")) j).1 = false ∧
        ((fun (_ : Nat) => (false, Status.mk 1 "down")) j).2.ok = false) ∧
      (applyExtensionDelayM 0 (fun _ => (false, Status.mk 1 "down"))).calls =
        max (0 * 1000) 200 / 20 ∧
      10 ≤ (applyExtensionDelayM 0 (fun _ => (false, Status.mk 1 "down"))).calls :=
  ⟨fun _ => ⟨rfl, rfl⟩,
    applyExtensionDelay_min_ten_attempts 0 _ (fun _ => ⟨rfl, rfl⟩)⟩

/-- Claim C8: if the first k calls of the predicate neither stop nor succeed
and the k-th call (zero-based) sets stop or returns a success status while the
deadline has not yet passed, applyExtensionDelay returns the k-th status with
exactly k + 1 predicate calls and k sleeps: no further sleep and no further
predicate call happen after the stopping call.  Consequently,
extensionPathActive with use_timeout = false performs exactly one probe
attempt, sleeps zero times, and returns OK or the socket-not-available
failure according to the first probe. -/
theorem applyExtensionDelay_stops_immediately :
    (∀ (T : Nat) (pred : Nat → Bool × Status) (k : Nat),
      (∀ j, j < k → (pred j).1 = false ∧ (pred j).2.ok = false) →
      ((pred k).1 = true ∨ (pred k).2.ok = true) →
      kExtensionInitializeLatency * k < max (T * 1000) 200 →
      applyExtensionDelayM T pred = ⟨(pred k).2, k + 1, k⟩) ∧
    (∀ (T : Nat) (probeOk : Nat → Bool) (path : String),
      extensionPathActiveM probeOk path false T =
        ⟨if probeOk 0 then Status.mk 0 "OK"
          else Status.mk 1 ("Extension socket not available: " ++ path),
          1, 0⟩) := by
  constructor
  · intro T pred k hfail hk hdel
    unfold applyExtensionDelayM
    rw [clamped_timeout]
    have := adLoop_stop pred (max (T * 1000) 200) k (max (T * 1000) 200) 0 0 0
      (by simp only [kExtensionInitializeLatency]
          have : 200 ≤ max (T * 1000) 200 := Nat.le_max_right _ _
          omega)
      (by intro j hj; simpa using hfail j hj)
      (by simpa using hk)
      (by simpa using hdel)
    simpa using this
  · intro T probeOk path
    unfold extensionPathActiveM applyExtensionDelayM
    rw [clamped_timeout]
    have h200 : 200 ≤ max (T * 1000) 200 := Nat.le_max_right _ _
    have := adLoop_stop (pathActivePred probeOk path false)
      (max (T * 1000) 200) 0 (max (T * 1000) 200) 0 0 0
      (by simp only [kExtensionInitializeLatency]; omega)
      (by intro j hj; omega)
      (by by_cases h : probeOk 0
          · right
            simp [pathActivePred, h, Status.ok]
          · left
            simp [pathActivePred, h])
      (by simp only [kExtensionInitializeLatency]; omega)
    rw [this]
    by_cases h : probeOk 0 <;> simp [pathActivePred, h]

/-- Witness for C8: a predicate that fails once and then asks to stop at call
index 1, under T = 3; and a concrete one-probe endpoint check. -/
theorem applyExtensionDelay_stops_immediately_witness :
    applyExtensionDelayM 3
        (fun i => (i == 1, Status.mk 1 "nope")) =
      ⟨Status.mk 1 "nope", 2, 1⟩ ∧
    extensionPathActiveM (fun _ => false) "/tmp/em" false 3 =
      ⟨Status.mk 1 "Extension socket not available: /tmp/em", 1, 0⟩ := by
  constructor
  · have := applyExtensionDelay_stops_immediately.1 3
      (fun i => (i == 1, Status.mk 1 "nope")) 1
      (by intro j hj
          have : j = 0 := by omega
          subst this
          exact ⟨rfl, rfl⟩)
      (Or.inl rfl)
      (by simp only [kExtensionInitializeLatency]; omega)
    simpa using this
  · have := applyExtensionDelay_stops_immediately.2 3 (fun _ => false) "/tmp/em"
    simpa using this

theorem lget_lset_self (l : Ledger) (u v : Nat) : lget (lset l u v) u = v := by
  induction l with
  | nil => simp [lget, lset, List.find?]
  | cons e t ih =>
      by_cases h : e.1 = u
      · simp [lset, h, lget, List.find?]
      · have hb : (e.1 == u) = false := by simpa using h
        simp only [lset, hb, if_false]
        simp only [lget, List.find?, hb] at ih ⊢
        exact ih

theorem lget_lset_other (l : Ledger) (u u' v : Nat) (h : u' ≠ u) :
    lget (lset l u v) u' = lget l u' := by
  induction l with
  | nil =>
      have hb : (u == u') = false := by simpa using (Ne.symm h)
      simp [lget, lset, List.find?, hb]
  | cons e t ih =>
      by_cases he : e.1 = u
      · have hb : (e.1 == u) = true := by simpa using he
        have hb' : (u == u') = false := by simpa using (Ne.symm h)
        have hb'' : (e.1 == u') = false := by
          subst he
          simpa using (Ne.symm h)
        simp [lset, hb, lget, List.find?, hb', hb'']
      · have hb : (e.1 == u) = false := by simpa using he
        simp only [lset, hb, if_false]
        by_cases he' : e.1 = u'
        · have hb2 : (e.1 == u') = true := by simpa using he'
          simp [lget, List.find?, hb2]
        · have hb2 : (e.1 == u') = false := by simpa using he'
          simp only [lget, List.find?, hb2] at ih ⊢
          exact ih

/-- Processing UUID `u` sets its counter to 2 exactly when the effective
probe failed, else to 1. -/
theorem lget_processUuid_self (env : WatchEnv) (l : Ledger) (u : Nat) :
    lget (processUuid env l u) u = if failEff env l u then 2 else 1 := by
  unfold processUuid failEff
  cases hw : effWritable env l u with
  | false => simp [hw, lget_lset_self]
  | true =>
      cases hping : env.ping u with
      | none => simp [hw, hping, lget_lset_self]
      | some code =>
          by_cases hc : (code != 0) = true
          · simp [hw, hping, hc, lget_lset_self]
          · have hcf : (code != 0) = false := by simpa using hc
            simp [hw, hping, hcf, lget_lset_self]

/-- Processing UUID `u` leaves every other counter unchanged. -/
theorem lget_processUuid_other (env : WatchEnv) (l : Ledger) (u u' : Nat)
    (h : u' ≠ u) : lget (processUuid env l u) u' = lget l u' := by
  unfold processUuid
  cases hw : effWritable env l u with
  | false => simp [hw, lget_lset_other _ _ _ _ h]
  | true =>
      cases hping : env.ping u with
      | none => simp [hw, hping, lget_lset_other _ _ _ _ h]
      | some code =>
          by_cases hc : (code != 0) = true
          · simp [hw, hping, hc, lget_lset_other _ _ _ _ h]
          · have hcf : (code != 0) = false := by simpa using hc
            simp [hw, hping, hcf, lget_lset_other _ _ _ _ h]

theorem lget_cons_self (e : Nat × Nat) (t : Ledger) (u : Nat)
    (h : e.1 = u) : lget (e :: t) u = e.2 := by
  unfold lget
  rw [List.find?_cons_of_pos _ (by simpa using h)]

theorem lget_cons_other (e : Nat × Nat) (t : Ledger) (u : Nat)
    (h : e.1 ≠ u) : lget (e :: t) u = lget t u := by
  unfold lget
  rw [List.find?_cons_of_neg _ (by simpa using h)]

theorem mem_lset (l : Ledger) (u v : Nat) (e : Nat × Nat)
    (h : e ∈ lset l u v) : e = (u, v) ∨ e ∈ l := by
  induction l with
  | nil => simpa [lset] using h
  | cons e₀ t ih =>
      by_cases he : e₀.1 = u
      · have heb : (e₀.1 == u) = true := by simpa using he
        simp only [lset, heb, if_true] at h
        rcases List.mem_cons.mp h with h' | h'
        · exact Or.inl h'
        · exact Or.inr (List.mem_cons_of_mem _ h')
      · have heb : (e₀.1 == u) = false := by simpa using he
        simp only [lset, heb, Bool.false_eq_true, if_false] at h
        rcases List.mem_cons.mp h with h' | h'
        · exact Or.inr (h' ▸ List.mem_cons_self _ _)
        · rcases ih h' with h'' | h''
          · exact Or.inl h''
          · exact Or.inr (List.mem_cons_of_mem _ h'')

theorem mem_keys_lset (l : Ledger) (u v u' : Nat) :
    u' ∈ lkeys (lset l u v) ↔ u' = u ∨ u' ∈ lkeys l := by
  induction l with
  | nil => simp [lset, lkeys]
  | cons e t ih =>
      by_cases he : e.1 = u
      · have heb : (e.1 == u) = true := by simpa using he
        simp [lset, heb, lkeys, he]
      · have heb : (e.1 == u) = false := by simpa using he
        simp only [lset, heb, Bool.false_eq_true, if_false, lkeys,
          List.map_cons, List.mem_cons]
        simp only [lkeys] at ih
        rw [ih]
        tauto

theorem nodup_keys_lset (l : Ledger) (u v : Nat)
    (h : (lkeys l).Nodup) : (lkeys (lset l u v)).Nodup := by
  induction l with
  | nil => simp [lset, lkeys]
  | cons e t ih =>
      simp only [lkeys, List.map_cons, List.nodup_cons] at h
      by_cases he : e.1 = u
      · have heb : (e.1 == u) = true := by simpa using he
        simp only [lset, heb, if_true, lkeys, List.map_cons, List.nodup_cons]
        exact ⟨he ▸ h.1, h.2⟩
      · have heb : (e.1 == u) = false := by simpa using he
        simp only [lset, heb, Bool.false_eq_true, if_false, lkeys,
          List.map_cons, List.nodup_cons]
        refine ⟨?_, ih h.2⟩
        intro hmem
        rcases (mem_keys_lset t u v e.1).mp hmem with h' | h'
        · exact he h'
        · exact h.1 h'

theorem mem_iff_lget (l : Ledger) (u v : Nat) (hn : (lkeys l).Nodup) :
    (u, v) ∈ l ↔ u ∈ lkeys l ∧ lget l u = v := by
  induction l with
  | nil => simp [lget, lkeys]
  | cons e t ih =>
      simp only [lkeys, List.map_cons, List.nodup_cons] at hn
      by_cases he : e.1 = u
      · have hnu : u ∉ lkeys t := he ▸ hn.1
        rw [lget_cons_self e t u he]
        constructor
        · intro h
          rcases List.mem_cons.mp h with h' | h'
          · refine ⟨by simp [lkeys, he], ?_⟩
            rw [← h']
          · exact absurd (List.mem_map.mpr ⟨(u, v), h', rfl⟩) hnu
        · rintro ⟨-, h2⟩
          have hev : e = (u, v) := by
            cases e with
            | mk a b =>
                simp only at he h2
                rw [he, h2]
          rw [hev]
          exact List.mem_cons_self _ _
      · have h1iff : u ∈ lkeys (e :: t) ↔ u ∈ lkeys t := by
          simp only [lkeys, List.map_cons, List.mem_cons]
          constructor
          · rintro (h' | h')
            · exact absurd h'.symm he
            · exact h'
          · exact Or.inr
        rw [lget_cons_other e t u he, h1iff]
        constructor
        · intro h
          rcases List.mem_cons.mp h with h' | h'
          · exact absurd (congrArg Prod.fst h'.symm) he
          · exact (ih hn.2).mp h'
        · intro h
          exact List.mem_cons_of_mem _ ((ih hn.2).mpr h)

theorem mem_keys_processUuid (env : WatchEnv) (l : Ledger) (u u' : Nat) :
    u' ∈ lkeys (processUuid env l u) ↔ u' = u ∨ u' ∈ lkeys l := by
  unfold processUuid
  cases hw : effWritable env l u with
  | false =>
      simp only [Bool.false_eq_true, if_false, mem_keys_lset]
      tauto
  | true =>
      simp only [if_true]
      cases hping : env.ping u with
      | none =>
          simp only [mem_keys_lset]
          tauto
      | some code =>
          by_cases hc : (code != 0) = true
          · simp only [hc, if_true, mem_keys_lset]
            tauto
          · have hcf : (code != 0) = false := by simpa using hc
            simp only [hcf, Bool.false_eq_true, if_false, mem_keys_lset]
            tauto

theorem nodup_keys_processUuid (env : WatchEnv) (l : Ledger) (u : Nat)
    (h : (lkeys l).Nodup) : (lkeys (processUuid env l u)).Nodup := by
  unfold processUuid
  cases hw : effWritable env l u with
  | false =>
      simp only [Bool.false_eq_true, if_false]
      exact nodup_keys_lset _ _ _ (nodup_keys_lset _ _ _ h)
  | true =>
      simp only [if_true]
      cases hping : env.ping u with
      | none => exact nodup_keys_lset _ _ _ (nodup_keys_lset _ _ _ h)
      | some code =>
          by_cases hc : (code != 0) = true
          · simp only [hc, if_true]
            exact nodup_keys_lset _ _ _ (nodup_keys_lset _ _ _ h)
          · have hcf : (code != 0) = false := by simpa using hc
            simp only [hcf, Bool.false_eq_true, if_false]
            exact nodup_keys_lset _ _ _ (nodup_keys_lset _ _ _ h)

/-- `failEff` reads the pre-tick ledger only through the counter of `u`. -/
theorem failEff_congr (env : WatchEnv) (l₁ l₂ : Ledger) (u : Nat)
    (h : lget l₁ u = lget l₂ u) : failEff env l₁ u = failEff env l₂ u := by
  unfold failEff effWritable
  rw [h]

theorem lget_foldl_not_mem (env : WatchEnv) (us : List Nat) :
    ∀ (l : Ledger) (u : Nat), u ∉ us →
      lget (us.foldl (processUuid env) l) u = lget l u := by
  induction us with
  | nil => intro l u _; rfl
  | cons u₀ rest ih =>
      intro l u hu
      have hne : u ≠ u₀ := fun h => hu (h ▸ List.mem_cons_self _ _)
      have hrest : u ∉ rest := fun h => hu (List.mem_cons_of_mem _ h)
      rw [List.foldl_cons, ih _ u hrest, lget_processUuid_other _ _ _ _ hne]

theorem mem_keys_foldl (env : WatchEnv) (us : List Nat) :
    ∀ (l : Ledger) (u : Nat),
      u ∈ lkeys (us.foldl (processUuid env) l) ↔ u ∈ lkeys l ∨ u ∈ us := by
  induction us with
  | nil => intro l u; simp
  | cons u₀ rest ih =>
      intro l u
      rw [List.foldl_cons, ih, mem_keys_processUuid]
      simp only [List.mem_cons]
      tauto

theorem nodup_keys_foldl (env : WatchEnv) (us : List Nat) :
    ∀ (l : Ledger), (lkeys l).Nodup →
      (lkeys (us.foldl (processUuid env) l)).Nodup := by
  induction us with
  | nil => intro l h; exact h
  | cons u₀ rest ih =>
      intro l h
      rw [List.foldl_cons]
      exact ih _ (nodup_keys_processUuid env l u₀ h)

/-- After the per-UUID loop of one tick over a duplicate-free UUID snapshot,
the counter of `u` is 2 or 1 according to the effective probe verdict for the
UUIDs in the snapshot, and unchanged for all others. -/
theorem lget_foldl (env : WatchEnv) (us : List Nat) :
    ∀ (l : Ledger) (u : Nat), us.Nodup →
      lget (us.foldl (processUuid env) l) u =
        if u ∈ us then (if failEff env l u then 2 else 1) else lget l u := by
  induction us with
  | nil => intro l u _; simp
  | cons u₀ rest ih =>
      intro l u hnd
      rw [List.nodup_cons] at hnd
      rw [List.foldl_cons]
      by_cases hu : u = u₀
      · subst hu
        rw [lget_foldl_not_mem env rest _ u hnd.1,
          lget_processUuid_self env l u]
        simp
      · rw [ih _ u hnd.2,
          failEff_congr env (processUuid env l u₀) l u
            (lget_processUuid_other env l u₀ u hu),
          lget_processUuid_other env l u₀ u hu]
        simp only [List.mem_cons, hu, false_or]

theorem all_ge_one_lset (l : Ledger) (u v : Nat)
    (hl : ∀ e ∈ l, 1 ≤ e.2) (hv : 1 ≤ v) :
    ∀ e ∈ lset l u v, 1 ≤ e.2 := by
  intro e he
  rcases mem_lset l u v e he with h | h
  · rw [h]; exact hv
  · exact hl e h

theorem all_ge_one_processUuid (env : WatchEnv) (l : Ledger) (u : Nat)
    (hl : ∀ e ∈ l, 1 ≤ e.2) : ∀ e ∈ processUuid env l u, 1 ≤ e.2 := by
  unfold processUuid
  have h1 : ∀ e ∈ lset l u 1, 1 ≤ e.2 := all_ge_one_lset l u 1 hl le_rfl
  cases hw : effWritable env l u with
  | false =>
      simp only [Bool.false_eq_true, if_false]
      exact all_ge_one_lset _ _ _ h1 (Nat.le_add_left 1 _)
  | true =>
      simp only [if_true]
      cases hping : env.ping u with
      | none => exact all_ge_one_lset _ _ _ h1 (Nat.le_add_left 1 _)
      | some code =>
          by_cases hc : (code != 0) = true
          · simp only [hc, if_true]
            exact all_ge_one_lset _ _ _ h1 (Nat.le_add_left 1 _)
          · have hcf : (code != 0) = false := by simpa using hc
            simp only [hcf, Bool.false_eq_true, if_false]
            exact all_ge_one_lset _ _ _ h1 le_rfl

theorem all_ge_one_foldl (env : WatchEnv) (us : List Nat) :
    ∀ (l : Ledger), (∀ e ∈ l, 1 ≤ e.2) →
      ∀ e ∈ us.foldl (processUuid env) l, 1 ≤ e.2 := by
  induction us with
  | nil => intro l h; exact h
  | cons u₀ rest ih =>
      intro l h
      rw [List.foldl_cons]
      exact ih _ (all_ge_one_processUuid env l u₀ h)

/-- After a completed tick from a ledger whose entries are all at least 1,
every ledger entry equals exactly 1: counters of 2 are reset by the
end-of-tick pass together with the deregistration. -/
theorem tick_post_one (env : WatchEnv) (uuids : List Nat) (l : Ledger)
    (hl : ∀ e ∈ l, 1 ≤ e.2) : ∀ e ∈ (tickM env uuids l).1, e.2 = 1 := by
  intro e he
  unfold tickM at he
  rcases List.mem_map.mp he with ⟨e₀, he₀, hfe⟩
  have h1 : 1 ≤ e₀.2 := all_ge_one_foldl env uuids l hl e₀ he₀
  by_cases hgt : e₀.2 > 1
  · simp only [hgt, if_true] at hfe
    rw [← hfe]
  · simp only [hgt, if_false] at hfe
    rw [← hfe]
    omega

theorem lget_not_mem_keys (l : Ledger) (u : Nat) (h : u ∉ lkeys l) :
    lget l u = 0 := by
  unfold lget
  cases hf : l.find? (fun e => e.1 == u) with
  | none => rfl
  | some e =>
      exfalso
      have hmem : e ∈ l := List.mem_of_find?_eq_some hf
      have heq := List.find?_some hf
      have : e.1 = u := by simpa using heq
      exact h (this ▸ List.mem_map.mpr ⟨e, hmem, rfl⟩)

/-- Claim C1 counterexample: the watcher deregisters after a SINGLE tick with
one failed probe.  UUID 7 has ledger value 1 (it was probed successfully on
an earlier tick); in a tick whose probe of 7 fails once, the very same tick's
end pass calls removeBroadcast(7).  This contradicts the claim that a single
tick containing one failed probe never causes deregistration: line 284 forces
the counter to 1 before the probe, the failed probe bumps it to 2, and lines
309-315 deregister any counter exceeding 1 in the same invocation of
watch(). -/
theorem managerWatcher_two_tick_claim_counterexample :
    failEff envAllFail [(7, 1)] 7 = true ∧
      tickM envAllFail [7] [(7, 1)] = ([(7, 1)], [7]) := by
  exact ⟨rfl, rfl⟩

/-- Claim C1 amended: over a duplicate-free UUID snapshot and a ledger with
duplicate-free keys whose entries are all at most 1 (as at every tick
boundary), the end-of-tick pass deregisters exactly the UUIDs of the snapshot
whose effective probe failed during this one tick: deregistration follows a
single failed probe in the same tick, not two consecutive failed ticks.  (The
only latency grace is inside failEff: an unwritable socket with a counter of
0, i.e. never probed, is retried with the timeout-bounded endpoint probe
before the verdict.) -/
theorem managerWatcher_deregisters_within_failing_tick
    (env : WatchEnv) (uuids : List Nat) (l : Ledger)
    (hk : (lkeys l).Nodup) (hu : uuids.Nodup) (hv : ∀ e ∈ l, e.2 ≤ 1) :
    ∀ u, u ∈ (tickM env uuids l).2 ↔ (u ∈ uuids ∧ failEff env l u = true) := by
  intro u
  have hnd1 : (lkeys (uuids.foldl (processUuid env) l)).Nodup :=
    nodup_keys_foldl env uuids l hk
  unfold tickM
  simp only [List.mem_map, List.mem_filter, decide_eq_true_eq]
  constructor
  · rintro ⟨e, ⟨he, hgt⟩, hfe⟩
    have hpair : (e.1, e.2) ∈ uuids.foldl (processUuid env) l := he
    have hlg := ((mem_iff_lget _ e.1 e.2 hnd1).mp hpair).2
    rw [lget_foldl env uuids l e.1 hu] at hlg
    by_cases hmem : e.1 ∈ uuids
    · rw [if_pos hmem] at hlg
      by_cases hf : failEff env l e.1 = true
      · exact hfe ▸ ⟨hmem, hf⟩
      · rw [if_neg hf] at hlg
        omega
    · exfalso
      rw [if_neg hmem] at hlg
      by_cases hkey : e.1 ∈ lkeys l
      · have hle := hv _ ((mem_iff_lget l e.1 (lget l e.1) hk).mpr ⟨hkey, rfl⟩)
        simp only at hle
        omega
      · have h0 := lget_not_mem_keys l e.1 hkey
        omega
  · rintro ⟨hmem, hf⟩
    refine ⟨(u, 2), ⟨?_, by omega⟩, rfl⟩
    apply (mem_iff_lget _ u 2 hnd1).mpr
    refine ⟨(mem_keys_foldl env uuids l u).mpr (Or.inr hmem), ?_⟩
    rw [lget_foldl env uuids l u hu, if_pos hmem, if_pos hf]

/-- Witness for the amended C1 claim at a concrete single-extension tick. -/
theorem managerWatcher_deregisters_within_failing_tick_witness :
    ((lkeys [(7, 1)]).Nodup ∧ ([7] : List Nat).Nodup ∧
        (∀ e ∈ ([(7, 1)] : Ledger), e.2 ≤ 1)) ∧
      (7 ∈ (tickM envAllFail [7] [(7, 1)]).2 ↔
        (7 ∈ [7] ∧ failEff envAllFail [(7, 1)] 7 = true)) :=
  ⟨⟨by decide, by decide, by decide⟩,
    managerWatcher_deregisters_within_failing_tick envAllFail [7] [(7, 1)]
      (by decide) (by decide) (by decide) 7⟩

/-- Claim C3: for every UUID present in the failure ledger, after every
completed watcher tick the ledger value is at least 1 and never exceeds 1
(values greater than 1 exist only transiently within the tick, because the
end-of-tick pass resets every entry exceeding 1 back to 1 after deregistering
it); over any multi-tick run from a ledger whose entries are at least 1 —
including the empty initial ledger — every entry stays at least 1, never 0
for a known extension. -/
theorem failure_ledger_ge_one_after_tick :
    (∀ (env : WatchEnv) (uuids : List Nat) (l : Ledger),
      (∀ e ∈ l, 1 ≤ e.2) →
      ∀ e ∈ (tickM env uuids l).1, 1 ≤ e.2 ∧ ¬1 < e.2) ∧
    (∀ (script : List (WatchEnv × List Nat)) (l : Ledger),
      (∀ e ∈ l, 1 ≤ e.2) → ∀ e ∈ runTicks script l, 1 ≤ e.2) := by
  constructor
  · intro env uuids l hl e he
    have := tick_post_one env uuids l hl e he
    omega
  · intro script
    induction script with
    | nil => intro l hl; exact hl
    | cons t rest ih =>
        intro l hl
        have hstep : ∀ e ∈ (tickM t.1 t.2 l).1, 1 ≤ e.2 := by
          intro e he
          have := tick_post_one t.1 t.2 l hl e he
          omega
        have : runTicks (t :: rest) l = runTicks rest (tickM t.1 t.2 l).1 := by
          unfold runTicks
          rw [List.foldl_cons]
        rw [this]
        exact ih _ hstep

/-- Witness for C3 on a concrete failing tick from ledger value 1: the
post-tick ledger entry is exactly 1 again. -/
theorem failure_ledger_ge_one_after_tick_witness :
    (∀ e ∈ ([(5, 1)] : Ledger), 1 ≤ e.2) ∧
      (∀ e ∈ (tickM envAllFail [5] [(5, 1)]).1, 1 ≤ e.2 ∧ ¬1 < e.2) :=
  ⟨by decide,
    failure_ledger_ge_one_after_tick.1 envAllFail [5] [(5, 1)] (by decide)⟩

theorem string_length_zero_iff (s : String) : (s.length = 0) ↔ s = "" := by
  cases s with
  | mk data =>
      cases data with
      | nil => exact ⟨fun _ => rfl, fun _ => rfl⟩
      | cons c t =>
          constructor
          · intro h
            have hlen : (String.mk (c :: t)).length = t.length + 1 := rfl
            omega
          · intro h
            have h' : c :: t = ([] : List Char) := congrArg String.data h
            exact absurd h' (by simp)

/-- Every output of osquerySplit is already trimmed and non-blank. -/
theorem osquerySplit_trimmed (s : String) (c : Char) :
    ∀ p ∈ osquerySplit s c, trim p = p ∧ p ≠ "" := by
  intro p hp
  unfold osquerySplit at hp
  rcases List.mem_filter.mp hp with ⟨hmem, hne⟩
  rcases List.mem_map.mp hmem with ⟨l, -, rfl⟩
  exact ⟨trim_idem _, by simpa using hne⟩

/-- Claim C9: the sanitization applied to an autoload line (whitespace trim
followed by the filesystem-path round trip performed in isFileSafe before the
safety checks) is idempotent. -/
theorem autoload_sanitize_idempotent (l : String) :
    sanitize (sanitize l) = sanitize l := by
  unfold sanitize pathNormalize
  exact trim_idem l

/-- Claim C6: isFileSafe accepts an autoload line if and only if, after
trimming surrounding whitespace, the line is non-empty, its first character
is neither a hash nor a semicolon, the path is not a directory, the parent
directory passes the safe-permissions check, and the file suffix equals the
platform suffix for the requested kind. -/
theorem isFileSafe_accepts_iff (env : FsEnv) (l : String)
    (k : ExtenableTypes) :
    isFileSafe env l k = true ↔
      (trim l ≠ "" ∧ firstChar (trim l) ≠ '#' ∧ firstChar (trim l) ≠ ';' ∧
        env.isDirectory (trim l) = false ∧
        env.safePermissions (parentPath (trim l)) (trim l) = true ∧
        extensionSuffix (trim l) = kExtendables k) := by
  unfold isFileSafe
  constructor
  · intro h
    split_ifs at h with h1 h2 h3 h4
    simp only [Bool.or_eq_true, beq_iff_eq, not_or] at h1
    refine ⟨?_, ?_, ?_, ?_, ?_, ?_⟩
    · intro he
      exact h1.1.1 ((string_length_zero_iff (trim l)).mpr he)
    · exact h1.1.2
    · exact h1.2
    · simpa using h2
    · simpa using h3
    · simpa using h4
  · rintro ⟨h1, h2, h3, h4, h5, h6⟩
    rw [if_neg, if_neg, if_neg, if_neg]
    · simp [h6]
    · simp [h5]
    · simp [h4]
    · simp only [Bool.or_eq_true, beq_iff_eq, not_or]
      refine ⟨⟨?_, h2⟩, h3⟩
      intro hlen
      exact h1 ((string_length_zero_iff (trim l)).mp (by simpa using hlen))

/-- A trimmed comment line is always rejected by isFileSafe. -/
theorem isFileSafe_comment_false (env : FsEnv) (p : String)
    (k : ExtenableTypes) (ht : trim p = p)
    (hc : firstChar p = '#' ∨ firstChar p = ';') :
    isFileSafe env p k = false := by
  unfold isFileSafe
  rw [ht]
  rcases hc with h | h <;> simp [h]

theorem loadExtensionsM_some (fe : String) (env : LoadEnv)
    (loadfile content : String) (hr : env.readFile loadfile = some content) :
    loadExtensionsM fe env loadfile =
      (Status.mk 0 "OK",
        (if (fe == "") then [] else [fe]) ++
          (osquerySplit content '\n').filterMap
            (fun p =>
              if isFileSafe env.fs p ExtenableTypes.EXTENSION then
                some (sanitize p)
              else none)) := by
  unfold loadExtensionsM
  rw [hr]

theorem loadExtensionsM_none (fe : String) (env : LoadEnv)
    (loadfile : String) (hr : env.readFile loadfile = none) :
    loadExtensionsM fe env loadfile =
      (Status.mk 1 ("Failed reading: " ++ loadfile),
        if (fe == "") then [] else [fe]) := by
  unfold loadExtensionsM
  rw [hr]

theorem loadModulesM_some (env : LoadEnv) (loadfile content : String)
    (hr : env.readFile loadfile = some content) :
    loadModulesM env loadfile =
      Status.mk
        (if (osquerySplit content '\n').all
            (fun p => isFileSafe env.fs p ExtenableTypes.MODULE) then 0
          else 1) "" := by
  unfold loadModulesM
  rw [hr]

theorem loadModulesM_none (env : LoadEnv) (loadfile : String)
    (hr : env.readFile loadfile = none) :
    loadModulesM env loadfile =
      Status.mk 1 ("Failed reading: " ++ loadfile) := by
  unfold loadModulesM
  rw [hr]

/-- Claim C7: loadExtensions fails if and only if the loadfile cannot be
read (rejected lines are skipped without affecting the status, so a readable
loadfile of only comments and blank lines succeeds with zero candidates,
given no shell single-extension flag), whereas loadModules fails exactly
when the loadfile is unreadable or some line of a readable loadfile is
rejected. -/
theorem loadfile_aggregate_status (env : LoadEnv) (loadfile : String) :
    ((loadExtensionsM "" env loadfile).1.ok = true ↔
      (env.readFile loadfile).isSome = true) ∧
    (∀ content, env.readFile loadfile = some content →
      (∀ p ∈ osquerySplit content '\n',
        firstChar p = '#' ∨ firstChar p = ';') →
      (loadExtensionsM "" env loadfile).1.ok = true ∧
        (loadExtensionsM "" env loadfile).2 = []) ∧
    ((loadModulesM env loadfile).ok = false ↔
      (env.readFile loadfile = none ∨
        ∃ content, env.readFile loadfile = some content ∧
          ∃ p ∈ osquerySplit content '\n',
            isFileSafe env.fs p ExtenableTypes.MODULE = false)) := by
  refine ⟨?_, ?_, ?_⟩
  · cases hr : env.readFile loadfile with
    | some content =>
        rw [loadExtensionsM_some "" env loadfile content hr]
        simp [Status.ok]
    | none =>
        rw [loadExtensionsM_none "" env loadfile hr]
        simp [Status.ok]
  · intro content hr hcomment
    rw [loadExtensionsM_some "" env loadfile content hr]
    refine ⟨rfl, ?_⟩
    have hpre : (if (("" : String) == "") then ([] : List String) else [""]) =
        [] := rfl
    rw [hpre, List.nil_append, List.filterMap_eq_nil_iff]
    intro p hp
    have ht := osquerySplit_trimmed content '\n' p hp
    rw [isFileSafe_comment_false env.fs p ExtenableTypes.EXTENSION ht.1
      (hcomment p hp)]
    rfl
  · cases hr : env.readFile loadfile with
    | some content =>
        rw [loadModulesM_some env loadfile content hr]
        by_cases hall : (osquerySplit content '\n').all
            (fun p => isFileSafe env.fs p ExtenableTypes.MODULE) = true
        · rw [if_pos hall]
          rw [List.all_eq_true] at hall
          constructor
          · intro h
            simp [Status.ok] at h
          · rintro (h | ⟨c, hc, p, hp, hf⟩)
            · exact absurd h (by simp)
            · injection hc with hc
              subst hc
              exact absurd (hall p hp) (by simp [hf])
        · rw [if_neg hall]
          constructor
          · intro _
            right
            rw [List.all_eq_true] at hall
            push_neg at hall
            obtain ⟨p, hp, hf⟩ := hall
            exact ⟨content, rfl, p, hp, by simpa using hf⟩
          · intro _
            rfl
    | none =>
        rw [loadModulesM_none env loadfile hr]
        constructor
        · intro _
          exact Or.inl rfl
        · intro _
          rfl

/-- Witness for C7: a readable loadfile of one comment, one blank line and
one semicolon line succeeds with zero candidates for extensions, while
loadModules reports the aggregate failure; an unreadable loadfile fails
both. -/
theorem loadfile_aggregate_status_witness :
    ((loadExtensionsM ""
        ⟨fun _ => some "#c\n\n; d\n", ⟨fun _ => false, fun _ _ => true⟩⟩
        "/etc/osquery/extensions.load").1.ok = true ∧
      (loadExtensionsM ""
        ⟨fun _ => some "#c\n\n; d\n", ⟨fun _ => false, fun _ _ => true⟩⟩
        "/etc/osquery/extensions.load").2 = []) ∧
    ((loadModulesM
        ⟨fun _ => some "#c\n\n; d\n", ⟨fun _ => false, fun _ _ => true⟩⟩
        "/etc/osquery/modules.load").ok = false ↔
      ((some "#c\n\n; d\n" : Option String) = none ∨
        ∃ content, (some "#c\n\n; d\n" : Option String) = some content ∧
          ∃ p ∈ osquerySplit content '\n',
            isFileSafe ⟨fun _ => false, fun _ _ => true⟩ p
              ExtenableTypes.MODULE = false)) :=
  ⟨(loadfile_aggregate_status
      ⟨fun _ => some "#c\n\n; d\n", ⟨fun _ => false, fun _ _ => true⟩⟩
      "/etc/osquery/extensions.load").2.1 "#c\n\n; d\n" rfl (by decide),
    (loadfile_aggregate_status
      ⟨fun _ => some "#c\n\n; d\n", ⟨fun _ => false, fun _ _ => true⟩⟩
      "/etc/osquery/modules.load").2.2⟩

/-- Claim C2 counterexample: with disable_extensions set, queryExternal does
not fail fast: against a live endpoint it performs the endpoint probe (one
attempt) and the query RPC, and returns a success status — the source of
queryExternal (lines 543-569) never consults FLAGS_disable_extensions.  This
refutes the claim that every listed facade operation returns a failure
immediately, without probing and without any RPC, when the flag is set. -/
theorem disable_extensions_failfast_counterexample :
    (queryExternalM true qenvLive "/tmp/em" "select 1" [] 3).status.ok =
        true ∧
      (queryExternalM true qenvLive "/tmp/em" "select 1" [] 3).probes = 1 ∧
      (queryExternalM true qenvLive "/tmp/em" "select 1" [] 3).rpcs = 1 := by
  refine ⟨rfl, rfl, rfl⟩

/-- Claim C2 amended: pingExtension, getExtensions and callExtension do fail
fast under disable_extensions — Status(1, "Extensions disabled") with zero
probe attempts and zero RPCs — but queryExternal and getQueryColumnsExternal
never consult the flag: their behavior is identical whether or not it is
set. -/
theorem disable_extensions_failfast_amended :
    (∀ (env : PingEnv) (path : String) (T : Nat),
      pingExtensionM true env path T =
        ⟨Status.mk 1 "Extensions disabled", (), 0, 0⟩) ∧
    (∀ (env : ExtListEnv) (socket : String) (T : Nat),
      getExtensionsM true env socket T =
        ⟨Status.mk 1 "Extensions disabled", [], 0, 0⟩) ∧
    (∀ (env : CallEnv) (socket : String) (uuid : Nat)
        (registry item : String) (request : Row) (response : List Row)
        (T : Nat),
      callExtensionM true env socket uuid registry item request response T =
        ⟨Status.mk 1 "Extensions disabled", response, 0, 0⟩) ∧
    (∀ (d : Bool) (env : QueryEnv) (socket query : String)
        (results : List Row) (T : Nat),
      queryExternalM d env socket query results T =
        queryExternalM false env socket query results T) ∧
    (∀ (d : Bool) (env : ColumnsEnv) (socket query : String)
        (columns : List (String × String)) (T : Nat),
      getQueryColumnsExternalM d env socket query columns T =
        getQueryColumnsExternalM false env socket query columns T) :=
  ⟨fun _ _ _ => rfl, fun _ _ _ => rfl, fun _ _ _ _ _ _ _ _ => rfl,
    fun _ _ _ _ _ _ => rfl, fun _ _ _ _ _ _ => rfl⟩

/-- Claim C10: callExtension appends rows to the caller's response only when
the extension's returned status code is EXT_SUCCESS — the output equals the
input response unchanged on a failed endpoint probe, on a transport error,
and on a non-success reply status — whereas queryExternal appends all
returned rows to the caller's results before checking the status, even when
the reply status is non-success, and propagates that status. -/
theorem callExtension_appends_only_on_success :
    (∀ (env : CallEnv) (path registry item : String) (request : Row)
        (response : List Row) (T : Nat),
      ((extensionPathActiveM env.probeOk path false T).status.ok = false →
        (callExtensionPathM env path registry item request response T).out =
          response) ∧
      (∀ e, env.call = Except.error e →
        (callExtensionPathM env path registry item request response T).out =
          response) ∧
      (∀ st rows, env.call = Except.ok (st, rows) → st.code ≠ EXT_SUCCESS →
        (callExtensionPathM env path registry item request response T).out =
          response) ∧
      (∀ st rows, env.call = Except.ok (st, rows) → st.code = EXT_SUCCESS →
        (extensionPathActiveM env.probeOk path false T).status.ok = true →
        (callExtensionPathM env path registry item request response T).out =
          response ++ rows)) ∧
    (∀ (env : QueryEnv) (path query : String) (results : List Row) (T : Nat)
        (st : Status) (rows : List Row),
      env.query = Except.ok (st, rows) →
      (extensionPathActiveM env.probeOk path false T).status.ok = true →
      (queryExternalPathM env path query results T).out = results ++ rows ∧
        (queryExternalPathM env path query results T).status =
          Status.mk st.code st.message) := by
  constructor
  · intro env path registry item request response T
    refine ⟨?_, ?_, ?_, ?_⟩
    · intro hprobe
      unfold callExtensionPathM
      simp only [hprobe, Bool.not_false, if_true]
    · intro e hcall
      unfold callExtensionPathM
      by_cases hprobe :
          (extensionPathActiveM env.probeOk path false T).status.ok = true
      · simp only [hprobe, Bool.not_true, Bool.false_eq_true, if_false, hcall]
      · have hp : (extensionPathActiveM env.probeOk path false T).status.ok =
            false := by simpa using hprobe
        simp only [hp, Bool.not_false, if_true]
    · intro st rows hcall hcode
      unfold callExtensionPathM
      by_cases hprobe :
          (extensionPathActiveM env.probeOk path false T).status.ok = true
      · have hc : (st.code == EXT_SUCCESS) = false := by simpa using hcode
        simp only [hprobe, Bool.not_true, Bool.false_eq_true, if_false, hcall,
          hc]
      · have hp : (extensionPathActiveM env.probeOk path false T).status.ok =
            false := by simpa using hprobe
        simp only [hp, Bool.not_false, if_true]
    · intro st rows hcall hcode hprobe
      unfold callExtensionPathM
      have hc : (st.code == EXT_SUCCESS) = true := by simpa using hcode
      simp only [hprobe, Bool.not_true, Bool.false_eq_true, if_false, hcall,
        hc, if_true]
  · intro env path query results T st rows hcall hprobe
    unfold queryExternalPathM
    simp only [hprobe, Bool.not_true, Bool.false_eq_true, if_false, hcall]
    exact ⟨trivial, trivial⟩

/-- Witness for C10 at concrete inputs: a non-success call leaves the
response unchanged while a non-success query still appends its rows. -/
theorem callExtension_appends_only_on_success_witness :
    ((callExtensionPathM
        ⟨fun _ => true, Except.ok (Status.mk 7 "degraded", [[("r", "1")]])⟩
        "/tmp/em.42" "table" "users" [] [] 3).out = ([] : List Row)) ∧
    ((queryExternalPathM
        ⟨fun _ => true, Except.ok (Status.mk 7 "degraded", [[("r", "1")]])⟩
        "/tmp/em" "select 1" [] 3).out = [[("r", "1")]]) := by
  constructor
  · exact (callExtension_appends_only_on_success.1
      ⟨fun _ => true, Except.ok (Status.mk 7 "degraded", [[("r", "1")]])⟩
      "/tmp/em.42" "table" "users" [] [] 3).2.2.1 (Status.mk 7 "degraded")
      [[("r", "1")]] rfl (by decide)
  · exact (callExtension_appends_only_on_success.2
      ⟨fun _ => true, Except.ok (Status.mk 7 "degraded", [[("r", "1")]])⟩
      "/tmp/em" "select 1" [] 3 (Status.mk 7 "degraded") [[("r", "1")]]
      rfl (by decide)).1

theorem requireLoop_cons (env : MgrEnv) (T : Nat) (n : String)
    (rest : List String) (waited : Bool) :
    requireLoop env T (n :: rest) waited =
      if (applyExtensionDelayM T
          (fun _ => requirePred env n waited)).status.ok then
        requireLoop env T rest true
      else
        ((applyExtensionDelayM T (fun _ => requirePred env n waited)).status,
          (applyExtensionDelayM T
            (fun _ => requirePred env n waited)).calls) := rfl

theorem applyExtensionDelayM_const_status (T : Nat) (stop : Bool)
    (st : Status) :
    (applyExtensionDelayM T (fun _ => (stop, st))).status = st := by
  unfold applyExtensionDelayM
  exact adLoop_const stop st _ _ _ _ _

theorem applyExtensionDelayM_stop_first (T : Nat)
    (pred : Nat → Bool × Status)
    (h : (pred 0).1 = true ∨ (pred 0).2.ok = true) :
    applyExtensionDelayM T pred = ⟨(pred 0).2, 1, 0⟩ := by
  unfold applyExtensionDelayM
  rw [clamped_timeout]
  have h200 : 200 ≤ max (T * 1000) 200 := Nat.le_max_right _ _
  have := adLoop_stop pred (max (T * 1000) 200) 0 (max (T * 1000) 200) 0 0 0
    (by simp only [kExtensionInitializeLatency]; omega)
    (by intro j hj; omega)
    (by simpa using h)
    (by simp only [kExtensionInitializeLatency]; omega)
  simpa using this

/-- The require loop on a name list whose first missing name is `n` (every
earlier name is listed with a successful ping): the loop returns the
autoload failure for `n`, and when a prober run happened before `n`'s run
(or `waited` was already set), that failing run makes exactly one predicate
call. -/
theorem requireLoop_missing (env : MgrEnv) (T : Nat) (n : String)
    (post : List String) (hget : env.getExtOk = true)
    (hn : (mgrListing env).find? (fun e => e.2 == n) = none) :
    ∀ (pre : List String) (waited : Bool),
      (∀ m ∈ pre, ∃ e, (mgrListing env).find? (fun x => x.2 == m) = some e ∧
        (env.ping e.1).ok = true) →
      (requireLoop env T (pre ++ n :: post) waited).1 =
        Status.mk 1 ("Extension not autoloaded: " ++ n) ∧
      ((waited = true ∨ pre ≠ []) →
        (requireLoop env T (pre ++ n :: post) waited).2 = 1) := by
  intro pre
  induction pre with
  | nil =>
      intro waited _
      have hpred : requirePred env n waited =
          (waited, Status.mk 1 ("Extension not autoloaded: " ++ n)) := by
        unfold requirePred
        rw [hget, if_pos rfl, hn]
      have hok : (applyExtensionDelayM T
          (fun _ => requirePred env n waited)).status.ok = false := by
        simp only [hpred, applyExtensionDelayM_const_status]
        rfl
      rw [List.nil_append, requireLoop_cons,
        if_neg (by rw [hok]; exact Bool.false_ne_true)]
      constructor
      · show (applyExtensionDelayM T
            (fun _ => requirePred env n waited)).status = _
        simp only [hpred, applyExtensionDelayM_const_status]
      · rintro (hw | hw)
        · subst hw
          show (applyExtensionDelayM T
              (fun _ => requirePred env n true)).calls = 1
          rw [applyExtensionDelayM_stop_first T
            (fun _ => requirePred env n true)
            (by simp only [hpred]; exact Or.inl trivial)]
        · exact absurd rfl hw
  | cons m pre' ih =>
      intro waited hpre
      obtain ⟨e, hfind, hping⟩ := hpre m (List.mem_cons_self m pre')
      have hpred : requirePred env m waited = (false, env.ping e.1) := by
        unfold requirePred
        rw [hget, if_pos rfl, hfind]
      have hok : (applyExtensionDelayM T
          (fun _ => requirePred env m waited)).status.ok = true := by
        rw [show (applyExtensionDelayM T
            (fun _ => requirePred env m waited)).status = env.ping e.1 by
          simp only [hpred, applyExtensionDelayM_const_status]]
        exact hping
      rw [List.cons_append, requireLoop_cons, if_pos hok]
      have hrec := ih true (fun x hx => hpre x (List.mem_cons_of_mem m hx))
      exact ⟨hrec.1, fun _ => hrec.2 (Or.inl rfl)⟩

/-- Claim C5: with a non-empty extensions_require list in which some name
never registers (and all earlier required names are registered with
successful pings), startExtensionManager fails with exactly the message
"Extension not autoloaded: " followed by the first missing name; and when at
least one required name precedes the missing one — so the first prober run
has completed and set `waited` — the failing prober run for the missing name
makes exactly one predicate call, i.e. later required names never wait out
another full timeout window. -/
theorem startExtensionManager_require_gate (env : MgrEnv) (T : Nat)
    (req : String) (pre post : List String) (n : String)
    (hsock : env.socketStatus.ok = true)
    (hget : env.getExtOk = true)
    (hsplit : osquerySplit req ',' = pre ++ n :: post)
    (hpre : ∀ m ∈ pre, ∃ e,
      (mgrListing env).find? (fun x => x.2 == m) = some e ∧
        (env.ping e.1).ok = true)
    (hn : (mgrListing env).find? (fun e => e.2 == n) = none) :
    (startExtensionManagerM env T req).1 =
      Status.mk 1 ("Extension not autoloaded: " ++ n) ∧
    (pre ≠ [] → (startExtensionManagerM env T req).2 = 1) := by
  have hreqne : (req == "") = false := by
    by_cases h : req = ""
    · subst h
      have hemp : osquerySplit "" ',' = [] := rfl
      rw [hemp] at hsplit
      exact absurd hsplit (by simp)
    · simpa using h
  unfold startExtensionManagerM
  rw [hsock]
  simp only [Bool.not_true, Bool.false_eq_true, if_false, hreqne]
  rw [hsplit]
  have hloop := requireLoop_missing env T n post hget hn pre false hpre
  exact ⟨hloop.1, fun hne => hloop.2 (Or.inr hne)⟩

/-- Witness for C5 on the spec scenario extensions_require="probe-a,probe-b"
with only probe-a registered: startup fails with "Extension not autoloaded:
probe-b" and the failing run made exactly one predicate call. -/
theorem startExtensionManager_require_gate_witness :
    (startExtensionManagerM envRequire 1 "probe-a,probe-b").1 =
      Status.mk 1 ("Extension not autoloaded: " ++ "probe-b") ∧
    (startExtensionManagerM envRequire 1 "probe-a,probe-b").2 = 1 :=
  ⟨(startExtensionManager_require_gate envRequire 1 "probe-a,probe-b"
      ["probe-a"] [] "probe-b" rfl rfl (by decide)
      (by
        intro m hm
        have hm' : m = "probe-a" := by simpa using hm
        subst hm'
        exact ⟨(42, "probe-a"), by decide, by decide⟩)
      (by decide)).1,
    (startExtensionManager_require_gate envRequire 1 "probe-a,probe-b"
      ["probe-a"] [] "probe-b" rfl rfl (by decide)
      (by
        intro m hm
        have hm' : m = "probe-a" := by simpa using hm
        subst hm'
        exact ⟨(42, "probe-a"), by decide, by decide⟩)
      (by decide)).2 (by simp)⟩

end OsqExt

